import Mathlib

/-!
Verification of the DMP/DMR statistical pipeline of `illuminator/dm.py`.

The embedding models the two entry points `get_dmp` and `get_dmr` of
`src/illuminator/dm.py` over lists:

* a beta matrix is a list of rows `(probe_id, beta values)`, a beta value being
  `Option ℚ` (`none` models a missing value / NaN);
* the annotation coordinate table (`annotation.genomic_ranges` after dropping
  the `Strand` column) is a list of `(probe_id, genomic range)` pairs;
* pandas `DataFrame.join` keeps the calling frame's row order and, on
  duplicate keys, produces one row per matching pair; `how='inner'` keeps
  matching rows only, the default `how='left'` keeps every left row and fills
  the right columns with NaN (here: a row of `none` beta values);
* external library calls that `dm.py` makes are kept abstract: the OLS fit of
  `statsmodels` and the design-matrix builder of `patsy` are oracle function
  parameters, scipy's normal survival function `sf` and its inverse `isf`
  (used by `combine_pvalues(..., method='stouffer')`) are function parameters,
  and `remove_probe_suffix` of `illuminator.utils` (a module not part of the
  sources) is a function parameter `strip`;
* `set_level_as_index(betas, 'probe_id', drop_others=True)` is modelled as the
  identity: the modelled beta matrix is already keyed by probe id.
-/

/-- Probe identifiers are strings (pandas index labels). -/
abbrev ProbeId := String

/-- One row of beta values for a probe; `none` models NaN. -/
abbrev BetaRow := List (Option ℚ)

/-- The beta matrix: rows `(probe_id, beta values of each sample)`. -/
abbrev BetaMatrix := List (ProbeId × BetaRow)

/-- A genomic range from `annotation.genomic_ranges`: the `Chromosome`,
`Start` and `End` columns (the `Strand` column is dropped by `get_dmr`). -/
structure GRange where
  chrom : String
  start : Int
  stop : Int
deriving DecidableEq

/-- The probe-coordinate table `annotation.genomic_ranges` keyed by probe id. -/
abbrev CoordTable := List (ProbeId × GRange)

/-- A row of the joined table `cpg_ids`: probe id, coordinates, beta values. -/
abbrev CpgRow := ProbeId × GRange × BetaRow

/-! ### Generic list sorting (stands in for `sort_ranges` / `sort_values`) -/

/-- Insert an element into a list ordered by the boolean relation `le`. -/
def insertBy (le : α → α → Bool) (x : α) : List α → List α
  | [] => [x]
  | y :: ys => if le x y then x :: y :: ys else y :: insertBy le x ys

/-- Insertion sort by the boolean relation `le`. -/
def sortBy (le : α → α → Bool) : List α → List α
  | [] => []
  | x :: xs => insertBy le x (sortBy le xs)

theorem insertBy_perm (le : α → α → Bool) (x : α) (l : List α) :
    (insertBy le x l).Perm (x :: l) := by
  induction l with
  | nil => simp [insertBy]
  | cons y ys ih =>
    simp only [insertBy]
    by_cases h : le x y = true
    · simp [h]
    · simp only [h]
      rw [if_neg (by simp [h])]
      exact ((ih.cons y).trans (List.Perm.swap x y ys))

theorem sortBy_perm (le : α → α → Bool) (l : List α) : (sortBy le l).Perm l := by
  induction l with
  | nil => simp [sortBy]
  | cons x xs ih => exact (insertBy_perm le x (sortBy le xs)).trans (ih.cons x)

/-! ### Joins (pandas `DataFrame.join` on the index) -/

/-- Rows of the beta matrix with no missing value in any sample:
`betas.dropna()` in `get_dmr`. -/
def betasNoNa (betas : BetaMatrix) : BetaMatrix :=
  betas.filter (fun r => r.2.all Option.isSome)

/-- `coords.join(betas, how='inner')`: each coordinate row, in coordinate
order, paired with every beta row sharing its probe id. -/
def innerJoin (coords : CoordTable) (betas : BetaMatrix) : List CpgRow :=
  coords.flatMap (fun c => (betas.filter (fun r => r.1 == c.1)).map (fun r => (c.1, c.2, r.2)))

/-- `coords.join(betas)` with pandas' default `how='left'`: unmatched
coordinate rows are kept, their beta columns filled with NaN. -/
def leftJoin (coords : CoordTable) (betas : BetaMatrix) (nSamples : Nat) : List CpgRow :=
  coords.flatMap (fun c =>
    match betas.filter (fun r => r.1 == c.1) with
    | [] => [(c.1, c.2, List.replicate nSamples (none : Option ℚ))]
    | l => l.map (fun r => (c.1, c.2, r.2)))

/-- Number of samples: the number of columns of the beta matrix. -/
def nSamplesOf (betas : BetaMatrix) : Nat :=
  match betas with
  | [] => 0
  | r :: _ => r.2.length

/-- The join step of `get_dmr` (dm.py lines 143-152): drop zero-width ranges,
inner-join the coordinates with the NA-free beta rows, and if that join is
empty retry after mapping `remove_probe_suffix` (the `strip` parameter) over
the coordinate probe ids — the retry, as in the source, uses the pandas
default left join. -/
def joinStage (strip : ProbeId → ProbeId) (probe_coords : CoordTable)
    (betas : BetaMatrix) : List CpgRow :=
  let non_empty_coords := probe_coords.filter (fun p => decide (p.2.stop > p.2.start))
  let betas_no_na := betasNoNa betas
  let cpg_ids := innerJoin non_empty_coords betas_no_na
  if cpg_ids.isEmpty then
    leftJoin (non_empty_coords.map (fun p => (strip p.1, p.2))) betas_no_na (nSamplesOf betas)
  else cpg_ids

/-! ### Sorting by genomic position (`pr.PyRanges(cpg_ids).sort_ranges()`) -/

/-- Lexicographic comparison of strings as lists of character codes. -/
def charsLe : List Char → List Char → Bool
  | [], _ => true
  | _ :: _, [] => false
  | a :: as, b :: bs =>
    if a.toNat < b.toNat then true
    else if b.toNat < a.toNat then false
    else charsLe as bs

/-- String comparison used to order chromosome labels (plain lexical order,
the `natsorting=True` variant being commented out in the source). -/
def strLe (a b : String) : Bool := charsLe a.data b.data

/-- Ordering of genomic ranges: chromosome, then `Start`, then `End`. -/
def rangeLe (a b : GRange) : Bool :=
  if a.chrom == b.chrom then
    if a.start == b.start then decide (a.stop ≤ b.stop) else decide (a.start ≤ b.start)
  else strLe a.chrom b.chrom

/-- `pr.PyRanges(cpg_ids).sort_ranges()`: sort rows by chromosome and position. -/
def sortRanges (rows : List CpgRow) : List CpgRow :=
  sortBy (fun x y => rangeLe x.2.1 y.2.1) rows

/-! ### Distances and change points -/

/-- `cpg_ranges['Chromosome'] != cpg_ranges['Chromosome'].shift(-1)`: a probe
is the last of its chromosome if the next row has a different chromosome, and
the last row overall is always flagged. -/
def lastInChromosome : List String → List Bool
  | [] => []
  | [_] => [true]
  | a :: b :: rest => (a != b) :: lastInChromosome (b :: rest)

/-- Squared Euclidean distance between two beta rows:
`(row.diff(next) ** 2).sum(axis=1)`; pandas' `sum` skips NaN terms, so a
sample with a missing value on either side contributes nothing. -/
def rowDist (r1 r2 : BetaRow) : ℚ :=
  ((r1.zip r2).map (fun p =>
    match p.1, p.2 with
    | some a, some b => (a - b) ^ 2
    | _, _ => 0)).sum

/-- `beta_euclidian_dist`: distance of each probe to the next row; the last
probe has no distance (`.iloc[-1] = None`). -/
def betaDistances : List BetaRow → List (Option ℚ)
  | [] => []
  | [_] => [none]
  | a :: b :: rest => some (rowDist a b) :: betaDistances (b :: rest)

/-- `beta_euclidian_dist[~last_probe_in_chromosome]`: the distances entering
the quantile, excluding last-probe-per-chromosome entries. -/
def quantileCandidates (dists : List (Option ℚ)) (lastChrom : List Bool) : List ℚ :=
  (dists.zip lastChrom).filterMap (fun p => if p.2 then none else p.1)

/-- `np.quantile(xs, q)` with the default linear interpolation; `none` models
the exception numpy raises on an empty input. -/
def npQuantile (xs : List ℚ) (q : ℚ) : Option ℚ :=
  match sortBy (fun a b => decide (a ≤ b)) xs with
  | [] => none
  | s =>
    let n := s.length
    let h : ℚ := q * ((n : ℚ) - 1)
    let lo := (⌊h⌋).toNat
    let hi := (⌈h⌉).toNat
    let vlo := s.getD lo 0
    let vhi := s.getD hi 0
    some (vlo + (h - (lo : ℚ)) * (vhi - vlo))

/-- dm.py lines 171-173: `seg_per_locus` must satisfy `0 < seg_per_locus < 1`;
otherwise it falls back to 0.5. The boolean records that the warning about the
invalid value was logged. -/
def resolve_seg_per_locus (seg_per_locus : ℚ) : ℚ × Bool :=
  if 0 < seg_per_locus ∧ seg_per_locus < 1 then (seg_per_locus, false) else (1/2, true)

/-- dm.py lines 170-180: use the provided cutoff, or derive it as the
`1 - seg_per_locus` quantile of the candidate distances. Returns the cutoff
actually used together with the two warning flags (invalid `seg_per_locus`,
non-positive cutoff); `none` models the numpy exception on an empty quantile
input. A non-positive cutoff is kept as is: the code only logs a warning. -/
def resolve_cutoff (dist_cutoff : Option ℚ) (seg_per_locus : ℚ) (cands : List ℚ) :
    Option (ℚ × Bool × Bool) :=
  match dist_cutoff with
  | some c => some (c, false, decide (c ≤ 0))
  | none =>
    let r := resolve_seg_per_locus seg_per_locus
    match npQuantile cands (1 - r.1) with
    | none => none
    | some c => some (c, r.2, decide (c ≤ 0))

/-- dm.py line 183: `change_points = last_probe_in_chromosome |
(beta_euclidian_dist > dist_cutoff)`; a NaN distance compares as `False`. -/
def changePoints (lastChrom : List Bool) (dists : List (Option ℚ)) (cutoff : ℚ) : List Bool :=
  (lastChrom.zip dists).map (fun p =>
    p.1 || (match p.2 with
            | some d => decide (d > cutoff)
            | none => false))

/-! ### Segment ids (dm.py line 186) -/

/-- `change_points.shift(fill_value=True)`: shift down by one, the first entry
becoming `True`. -/
def shiftFillTrue : List Bool → List Bool
  | [] => []
  | l@(_ :: _) => true :: l.dropLast

/-- Running sum of booleans starting from `acc` (`cumsum` on a boolean
series). -/
def cumsumFrom (acc : Nat) : List Bool → List Nat
  | [] => []
  | b :: rest =>
    let acc2 := acc + (if b then 1 else 0)
    acc2 :: cumsumFrom acc2 rest

/-- `segment_id = change_points.shift(fill_value=True).cumsum()`. -/
def segmentIds (cp : List Bool) : List Nat := cumsumFrom 0 (shiftFillTrue cp)

/-! ### Re-merge (dm.py lines 189-201) -/

/-- Look up the segment id assigned to a probe (`join(segment_id)`). -/
def lookupSeg (segAssign : List (ProbeId × Nat)) (pid : ProbeId) : Option Nat :=
  (segAssign.find? (fun a => a.1 == pid)).map Prod.snd

/-- `last_segment_id = segment_id.max()`. -/
def maxSegOf (segAssign : List (ProbeId × Nat)) : Nat :=
  segAssign.foldr (fun a m => max a.2 m) 0

/-- `probe_coords_df.loc[betas.index]`: one row per beta probe and matching
coordinate row (only the probe id is carried: the coordinate columns play no
further part in the probe-to-segment mapping). -/
def locRows (coords : CoordTable) (betaIds : List ProbeId) : List ProbeId :=
  betaIds.flatMap (fun pid => (coords.filter (fun c => c.1 == pid)).map (fun _ => pid))

/-- `.join(segment_id)` (left join): attach the assigned segment id where one
exists, `none` (NaN) otherwise. -/
def joinSegId (segAssign : List (ProbeId × Nat)) (rows : List ProbeId) :
    List (ProbeId × Option Nat) :=
  rows.flatMap (fun pid =>
    match segAssign.filter (fun a => a.1 == pid) with
    | [] => [(pid, (none : Option Nat))]
    | l => l.map (fun a => (pid, some a.2)))

/-- Ordering on optional segment ids: `sort_values` puts NaN last. -/
def segKeyLe : Option Nat → Option Nat → Bool
  | _, none => true
  | none, some _ => false
  | some x, some y => decide (x ≤ y)

/-- `.sort_values('segment_id')`. -/
def sortBySegId (l : List (ProbeId × Option Nat)) : List (ProbeId × Option Nat) :=
  sortBy (fun a b => segKeyLe a.2 b.2) l

/-- dm.py lines 196-201: probes with a NaN segment id receive the brand-new
ids `last_segment_id + 1, last_segment_id + 2, ...` in table order. -/
def assignFresh (maxSeg : Nat) : Nat → List (ProbeId × Option Nat) → List (ProbeId × Nat)
  | _, [] => []
  | k, (pid, some s) :: rest => (pid, s) :: assignFresh maxSeg k rest
  | k, (pid, none) :: rest => (pid, maxSeg + 1 + k) :: assignFresh maxSeg (k + 1) rest

/-- Result of `get_dmr`, projected onto the probe-to-segment mapping:
`table m` is a normal return with mapping `m` (`table []` is the empty
DataFrame returned when no probe ids match), `keyErr` is the `KeyError`
raised by `probe_coords_df.loc[betas.index]` when a beta probe is missing
from the annotation, and `quantileErr` the numpy exception on an empty
quantile input. -/
inductive DmrResult where
  | table (m : List (ProbeId × Nat))
  | keyErr
  | quantileErr
deriving DecidableEq

/-- dm.py lines 189-201: re-merge the segment ids with all probes of the beta
matrix, then give each probe without a segment id its own fresh id. -/
def remergeStage (coords : CoordTable) (betaIds : List ProbeId)
    (segAssign : List (ProbeId × Nat)) : DmrResult :=
  if betaIds.all (fun pid => (coords.find? (fun c => c.1 == pid)).isSome) then
    .table (assignFresh (maxSegOf segAssign) 0 (sortBySegId (joinSegId segAssign (locRows coords betaIds))))
  else .keyErr

/-- `get_dmr` (dm.py lines 114-201), up to the probe-to-segment mapping that
the aggregation steps (Stouffer combination, Benjamini-Hochberg, estimate
means) group by. `strip` stands for `remove_probe_suffix`. -/
def get_dmr (strip : ProbeId → ProbeId) (probe_coords : CoordTable) (betas : BetaMatrix)
    (dist_cutoff : Option ℚ) (seg_per_locus : ℚ) : DmrResult :=
  let cpg_ids := joinStage strip probe_coords betas
  if cpg_ids.isEmpty then .table []
  else
    let sorted := sortRanges cpg_ids
    let lastChrom := lastInChromosome (sorted.map (fun r => r.2.1.chrom))
    let dists := betaDistances (sorted.map (fun r => r.2.2))
    match resolve_cutoff dist_cutoff seg_per_locus (quantileCandidates dists lastChrom) with
    | none => .quantileErr
    | some t =>
      let cp := changePoints lastChrom dists t.1
      let segAssign := (sorted.map Prod.fst).zip (segmentIds cp)
      remergeStage probe_coords (betas.map Prod.fst) segAssign

/-! ### The DMP side (`get_model_parameters`, `get_dmp`) -/

/-- The outcome of `OLS(betas_values, design_matrix, missing='drop').fit()` as
consumed by `get_model_parameters`: the overall F-test p-value and, per design
matrix column name, t-value, coefficient estimate and standard error. -/
structure OlsFit where
  f_pvalue : ℚ
  tvalues : String → ℚ
  params : String → ℚ
  bse : String → ℚ

/-- The design matrix built by patsy's `dmatrix`: column names and the
per-sample numeric rows. Consumed opaquely by the OLS oracle. -/
structure DesignMatrix where
  columns : List String
  data : List (List ℚ)

/-- The statsmodels OLS fit, kept abstract: a deterministic function of the
beta row and the design matrix. -/
abbrev OlsOracle := BetaRow → DesignMatrix → OlsFit

/-- A sample metadata table (`sample_sheet`). -/
structure DataTable where
  columns : List String
  rows : List (List String)

/-- `get_model_parameters` (dm.py lines 33-50): fit the OLS model and extract
`[f_pvalue]` followed by `[t-value, estimate, standard error]` per factor. -/
def get_model_parameters (ols : OlsOracle) (betas_values : BetaRow)
    (design_matrix : DesignMatrix) (factor_names : List String) : List ℚ :=
  let fitted_ols := ols betas_values design_matrix
  fitted_ols.f_pvalue ::
    factor_names.flatMap (fun factor =>
      [fitted_ols.tvalues factor, fitted_ols.params factor, fitted_ols.bse factor])

/-- The closure `wrapper_get_model_parameters` of the parallel branch. -/
def wrapper_get_model_parameters (ols : OlsOracle) (design_matrix : DesignMatrix)
    (factor_names : List String) (row : BetaRow) : List ℚ :=
  get_model_parameters ols row design_matrix factor_names

/-- `joblib.Parallel(n_jobs=-1)(delayed(f)(x) for x in tasks)`: tasks are
independent and `Parallel` returns the results in task submission order. -/
def parallelMap (f : α → β) (tasks : List α) : List β := tasks.map f

/-- The sequential branch of `get_dmp` (dm.py line 102). -/
def dmpFitSequential (ols : OlsOracle) (betas : BetaMatrix) (design_matrix : DesignMatrix)
    (factor_names : List String) : List (List ℚ) :=
  betas.map (fun row => get_model_parameters ols row.2 design_matrix factor_names)

/-- The parallel branch of `get_dmp` (dm.py lines 105-107). -/
def dmpFitParallel (ols : OlsOracle) (betas : BetaMatrix) (design_matrix : DesignMatrix)
    (factor_names : List String) : List (List ℚ) :=
  parallelMap (wrapper_get_model_parameters ols design_matrix factor_names) (betas.map Prod.snd)

/-- dm.py lines 100-107: sequential at or below 10000 probes, parallel above. -/
def dmpFit (ols : OlsOracle) (betas : BetaMatrix) (design_matrix : DesignMatrix)
    (factor_names : List String) : List (List ℚ) :=
  if betas.length ≤ 10000 then dmpFitSequential ols betas design_matrix factor_names
  else dmpFitParallel ols betas design_matrix factor_names

/-- Python's `str.lower()` on the ASCII range. -/
def pyLower (s : String) : String := ⟨s.data.map Char.toLower⟩

/-- `charsStartWith pat l`: `pat` is an initial segment of `l`. -/
def charsStartWith : List Char → List Char → Bool
  | [], _ => true
  | _ :: _, [] => false
  | a :: as, b :: bs => a == b && charsStartWith as bs

/-- `charsContain pat l`: `pat` occurs contiguously inside `l`. -/
def charsContain (pat : List Char) : List Char → Bool
  | [] => pat.isEmpty
  | c :: rest => charsStartWith pat (c :: rest) || charsContain pat rest

/-- Python's `pat in s.lower()`. -/
def lowerContains (s pat : String) : Bool := charsContain pat.data (pyLower s).data

/-- Output of `get_dmp`: row index (probe ids), column names, and values. -/
structure DmpResult where
  index : List ProbeId
  columns : List String
  values : List (List ℚ)
deriving DecidableEq

/-- `get_dmp` (dm.py lines 53-111). `ols` is the statsmodels oracle and
`dmatrix` the patsy oracle (the sheet is consumed by it after
`set_index('sample_name')`). Returns `none` when the sample sheet lacks the
`sample_name` column (the code logs an error and returns `None`). -/
def get_dmp (ols : OlsOracle) (dmatrix : String → DataTable → DesignMatrix)
    (betas : BetaMatrix) (formula : String) (sample_sheet : DataTable)
    (keep_na : Bool) : Option DmpResult :=
  if "sample_name" ∈ sample_sheet.columns then
    let betas2 := if keep_na then betas else betas.filter (fun r => r.2.all Option.isSome)
    let design_matrix := dmatrix formula sample_sheet
    let factor_names := design_matrix.columns.filter (fun f => !(lowerContains f "intercept"))
    let column_names := "p_value" ::
      factor_names.flatMap (fun factor =>
        ["t_value_" ++ factor, "estimate_" ++ factor, "std_err_" ++ factor])
    some ⟨betas2.map Prod.fst, column_names, dmpFit ols betas2 design_matrix factor_names⟩
  else none

/-! ### Stouffer combination (dm.py lines 23-31) -/

/-- The Stouffer statistic of scipy's `combine_pvalues(ps, method='stouffer')`
with equal weights: each p-value is turned into a Z-score by the inverse
survival function `isf` of the standard normal law, the scores are summed and
renormalised by the square root of the count. -/
noncomputable def stoufferStatistic (isf : ℝ → ℝ) (p_values : List ℝ) : ℝ :=
  (p_values.map isf).sum / Real.sqrt (p_values.length : ℝ)

/-- `combine_p_values_stouffer` (dm.py lines 23-31): the combined p-value,
`sf` being the standard normal survival function. -/
noncomputable def combine_p_values_stouffer (sf isf : ℝ → ℝ) (p_values : List ℝ) : ℝ :=
  sf (stoufferStatistic isf p_values)

/-! ## Claims -/

/-- C4: for every OLS oracle, beta matrix, design matrix and factor list, the
sequential fitting path and the parallel fitting path of `get_dmp` produce
identical result lists, and the fit dispatcher equals the row-by-row map of
`get_model_parameters`: the output for a probe depends only on that probe's
beta row and the shared design matrix, not on which execution path ran it. -/
theorem C4_sequential_parallel_identical (ols : OlsOracle) (betas : BetaMatrix)
    (design_matrix : DesignMatrix) (factor_names : List String) :
    dmpFitSequential ols betas design_matrix factor_names
      = dmpFitParallel ols betas design_matrix factor_names
    ∧ dmpFit ols betas design_matrix factor_names
      = betas.map (fun row => get_model_parameters ols row.2 design_matrix factor_names) := by
  have h : dmpFitSequential ols betas design_matrix factor_names
      = dmpFitParallel ols betas design_matrix factor_names := by
    unfold dmpFitSequential dmpFitParallel parallelMap wrapper_get_model_parameters
    rw [List.map_map]
    rfl
  refine ⟨h, ?_⟩
  unfold dmpFit
  split
  · rfl
  · rw [← h]
    rfl

/-- C7: for every sample sheet lacking the `sample_name` column, `get_dmp`
returns `none` (a logged error, not a thrown exception) whatever the OLS and
design-matrix oracles are: no fit is attempted, since the result does not
depend on the oracles. -/
theorem C7_missing_sample_name_column (ols : OlsOracle)
    (dmatrix : String → DataTable → DesignMatrix) (betas : BetaMatrix)
    (formula : String) (sample_sheet : DataTable) (keep_na : Bool)
    (h : "sample_name" ∉ sample_sheet.columns) :
    get_dmp ols dmatrix betas formula sample_sheet keep_na = none := by
  unfold get_dmp
  rw [if_neg h]

/-- C7 witness: a concrete sheet whose columns are `sample` and `age`. -/
theorem C7_witness :
    get_dmp (fun _ _ => ⟨0, fun _ => 0, fun _ => 0, fun _ => 0⟩) (fun _ _ => ⟨[], []⟩)
      [("cg01", [some 1])] "~age" ⟨["sample", "age"], []⟩ true = none :=
  C7_missing_sample_name_column _ _ _ _ _ _ (by decide)

/-- C8: with the default `keep_na = True`, `get_dmp`'s output has exactly the
beta matrix's rows in the beta matrix's row order, and its columns are exactly
`p_value` followed, for each design-matrix column whose name does not
case-insensitively contain `intercept`, by `t_value_<factor>`,
`estimate_<factor>`, `std_err_<factor>` in design-matrix column order. -/
theorem C8_output_shape (ols : OlsOracle) (dmatrix : String → DataTable → DesignMatrix)
    (betas : BetaMatrix) (formula : String) (sample_sheet : DataTable)
    (h : "sample_name" ∈ sample_sheet.columns) :
    get_dmp ols dmatrix betas formula sample_sheet true =
      some ⟨betas.map Prod.fst,
            "p_value" ::
              ((dmatrix formula sample_sheet).columns.filter
                  (fun f => !(lowerContains f "intercept"))).flatMap
                (fun factor =>
                  ["t_value_" ++ factor, "estimate_" ++ factor, "std_err_" ++ factor]),
            dmpFit ols betas (dmatrix formula sample_sheet)
              ((dmatrix formula sample_sheet).columns.filter
                (fun f => !(lowerContains f "intercept")))⟩ := by
  unfold get_dmp
  rw [if_pos h]
  rfl

/-- C8 witness: one probe, design-matrix columns `Intercept` and `age`; the
output columns evaluate to `p_value, t_value_age, estimate_age, std_err_age`
and the index to the beta matrix's probe ids. -/
theorem C8_witness :
    get_dmp (fun _ _ => ⟨0, fun _ => 0, fun _ => 0, fun _ => 0⟩)
      (fun _ _ => ⟨["Intercept", "age"], []⟩) [("cg01", [some 1])] "~age"
      ⟨["sample_name", "age"], []⟩ true =
      some ⟨["cg01"], ["p_value", "t_value_age", "estimate_age", "std_err_age"],
            [[0, 0, 0, 0]]⟩ :=
  (C8_output_shape (fun _ _ => ⟨0, fun _ => 0, fun _ => 0, fun _ => 0⟩)
    (fun _ _ => ⟨["Intercept", "age"], []⟩) [("cg01", [some 1])] "~age"
    ⟨["sample_name", "age"], []⟩ (by decide)).trans (by decide)

/-- C5 counterexample: the claim says a non-positive distance cutoff is
replaced by a safe default; in the code a caller-supplied cutoff of `0` (or
`-1`) is kept as the cutoff actually used — only the warning flag is set, no
substitution happens. -/
theorem C5_counterexample :
    resolve_cutoff (some 0) (1/2) [1] = some (0, false, true)
    ∧ resolve_cutoff (some (-1)) (1/2) [1] = some (-1, false, true) := by
  constructor <;> rfl

/-- C5 amended: when the cutoff is not supplied, a `seg_per_locus` outside the
open interval (0,1) is replaced by 0.5 with a warning; a non-positive supplied
cutoff is kept unchanged with a warning; neither condition aborts the run (the
cutoff resolution still returns a value). -/
theorem C5_config_handling (seg_per_locus c : ℚ) (cands : List ℚ)
    (h1 : ¬(0 < seg_per_locus ∧ seg_per_locus < 1)) (h2 : c ≤ 0) :
    resolve_seg_per_locus seg_per_locus = (1/2, true)
    ∧ resolve_cutoff (some c) seg_per_locus cands = some (c, false, true) := by
  constructor
  · unfold resolve_seg_per_locus
    rw [if_neg h1]
  · show some (c, false, decide (c ≤ 0)) = some (c, false, true)
    rw [decide_eq_true h2]

/-- C5 witness: `seg_per_locus = 2` is invalid and falls back to 0.5; a
supplied cutoff of `0` is kept with its warning flag set. -/
theorem C5_witness :
    resolve_seg_per_locus 2 = (1/2, true)
    ∧ resolve_cutoff (some 0) 2 [] = some (0, false, true) :=
  C5_config_handling 2 0 [] (by decide) (by decide)

theorem cumsumFrom_getElem (l : List Bool) : ∀ (acc i : Nat), i < l.length →
    (cumsumFrom acc l)[i]? = some (acc + ((l.take (i + 1)).count true)) := by
  induction l with
  | nil => intro acc i h; simp at h
  | cons b t ih =>
    intro acc i h
    cases i with
    | zero =>
      cases b <;> simp [cumsumFrom, List.count_cons]
    | succ i =>
      have h2 : i < t.length := by simpa using h
      have e : cumsumFrom acc (b :: t)
          = (acc + (if b then 1 else 0)) :: cumsumFrom (acc + (if b then 1 else 0)) t := rfl
      rw [e, List.getElem?_cons_succ, ih _ i h2, List.take_succ_cons, List.count_cons]
      cases b <;> simp <;> omega

theorem take_dropLast_eq (l : List α) (i : Nat) (h : i < l.length) :
    l.dropLast.take i = l.take i := by
  rw [List.dropLast_eq_take, List.take_take, min_eq_left (by omega)]

/-- C1 counterexample: in the code `segment_id =
change_points.shift(fill_value=True).cumsum()` starts at 1, because the
filled-in `True` is itself counted; already for a single probe (which is a
change point, being last in its chromosome) the claimed id — the number of
change points among prior probes, 0 — differs from the assigned id 1, so the
first probe overall does not get segment id 0. -/
theorem C1_counterexample :
    ¬ (∀ i, i < ([true] : List Bool).length →
        (segmentIds [true])[i]? = some ((([true] : List Bool).take i).count true)) := by
  decide

/-- C1 amended: for every change-point sequence (in probe sort order), the
segment id of probe `i` equals one plus the number of change points among
probes `0..i-1`; in particular the first probe is assigned segment id 1, and
the first probe after any change point still starts a new segment. -/
theorem C1_segment_id_offset (cp : List Bool) (i : Nat) (h : i < cp.length) :
    (segmentIds cp)[i]? = some (1 + ((cp.take i).count true)) := by
  cases cp with
  | nil => simp at h
  | cons b t =>
    have hlen : i < (true :: (b :: t).dropLast).length := by
      simp only [List.length_cons, List.length_dropLast]
      simp only [List.length_cons] at h ⊢
      omega
    show (cumsumFrom 0 (true :: (b :: t).dropLast))[i]? = _
    rw [cumsumFrom_getElem _ 0 i hlen, List.take_succ_cons,
      take_dropLast_eq _ i h, List.count_cons]
    simp
    omega

/-- C1 witness: three probes with a change point at the second one. -/
theorem C1_witness :
    (segmentIds [true, false, true])[2]? =
      some (1 + ((([true, false, true] : List Bool).take 2).count true)) :=
  C1_segment_id_offset [true, false, true] 2 (by decide)

/-- C9: Stouffer combination as used for segment p-values, with scipy's
normal survival function `sf` and inverse survival function `isf` abstracted
and constrained by the facts of the standard normal law that the proof needs
(`sf` inverts `isf` at `p`, `isf(1/2) = 0`, `sf(0) = 1/2`): combining the
single p-value `p ∈ (0,1)` returns `p`, and combining `{0.5, 0.5}` returns
`0.5`. -/
theorem C9_stouffer_identity (sf isf : ℝ → ℝ) (p : ℝ)
    (hp : 0 < p ∧ p < 1) (h1 : sf (isf p) = p) (h2 : isf (1/2) = 0) (h3 : sf 0 = 1/2) :
    combine_p_values_stouffer sf isf [p] = p
    ∧ combine_p_values_stouffer sf isf [1/2, 1/2] = 1/2 := by
  constructor
  · unfold combine_p_values_stouffer stoufferStatistic
    have hs : ((([p] : List ℝ).map isf).sum / Real.sqrt (([p] : List ℝ).length : ℝ)) = isf p := by
      simp [Real.sqrt_one]
    rw [hs, h1]
  · unfold combine_p_values_stouffer stoufferStatistic
    rw [show (([1/2, 1/2] : List ℝ).map isf) = [isf (1/2), isf (1/2)] from rfl, h2]
    simp [h3]

/-- C9 witness: `sf x = 1/2 - x` and `isf q = 1/2 - q` satisfy the three
normal-law facts, at the concrete p-value 1/3. -/
theorem C9_witness :
    combine_p_values_stouffer (fun x => 1/2 - x) (fun q => 1/2 - q) [(1:ℝ)/3] = 1/3
    ∧ combine_p_values_stouffer (fun x => 1/2 - x) (fun q => 1/2 - q) [1/2, 1/2] = 1/2 :=
  C9_stouffer_identity (fun x => 1/2 - x) (fun q => 1/2 - q) ((1:ℝ)/3)
    ⟨by norm_num, by norm_num⟩ (by norm_num) (by norm_num) (by norm_num)

/-- Concrete suffix-stripping function standing in for `remove_probe_suffix`
on the probe ids used in the bug demonstrations. -/
def stripDemo : ProbeId → ProbeId :=
  fun s => if s == "cg01_TC21" then "cg01" else if s == "cg02_TC21" then "cg02" else s

/-- C2: the code bug. The first join (dm.py line 147) is an inner join, but
the retry after suffix-stripping (line 152) omits `how='inner'`, so pandas
performs its default left join: with two suffixed annotation probes of which
only one matches the beta matrix, the retry keeps both rows and the unmatched
probe `cg02` enters the segmentation stage carrying a missing (NaN) beta
value — exactly one joined row has a missing value, contradicting the claim
that every probe entering segmentation has non-missing beta values for every
sample. -/
theorem C2_left_join_bug :
    joinStage stripDemo
        [("cg01_TC21", ⟨"chr1", 100, 200⟩), ("cg02_TC21", ⟨"chr1", 300, 400⟩)]
        [("cg01", [some (mkRat 1 2)])]
      = [("cg01", ⟨"chr1", 100, 200⟩, [some (mkRat 1 2)]),
         ("cg02", ⟨"chr1", 300, 400⟩, [none])]
    ∧ ((joinStage stripDemo
        [("cg01_TC21", ⟨"chr1", 100, 200⟩), ("cg02_TC21", ⟨"chr1", 300, 400⟩)]
        [("cg01", [some (mkRat 1 2)])]).countP
          (fun r => !(r.2.2.all Option.isSome))) = 1 := by
  constructor <;> rfl

/-- Annotation table for the C6 demonstration: one zero-width range and one
suffixed probe that never matches the beta matrix. -/
def coordsC6 : CoordTable := [("cgXX", ⟨"chr1", 100, 100⟩), ("cg01_TC21", ⟨"chr1", 100, 200⟩)]

/-- Beta matrix for the C6 demonstration: a single probe, absent from the
non-zero-width annotation rows before and after suffix-stripping. -/
def betasC6 : BetaMatrix := [("cgXX", [some (mkRat 1 2)])]

/-- C6: the code bug. The probe ids of `betasC6` intersect the usable
annotation ids of `coordsC6` neither before nor after suffix-stripping (first
two conjuncts: both inner joins are empty), yet `get_dmr` does not return the
empty result with an error: because the retry join is a left join, `cpg_ids`
is non-empty, the `No match found` branch (dm.py line 154) is unreachable,
and the run proceeds to return a non-empty probe-to-segment mapping. -/
theorem C6_no_match_not_detected :
    innerJoin (coordsC6.filter (fun p => decide (p.2.stop > p.2.start))) (betasNoNa betasC6) = []
    ∧ innerJoin ((coordsC6.filter (fun p => decide (p.2.stop > p.2.start))).map
        (fun p => (stripDemo p.1, p.2))) (betasNoNa betasC6) = []
    ∧ get_dmr stripDemo coordsC6 betasC6 (some 1) (mkRat 1 2) = .table [("cgXX", 2)] := by
  refine ⟨rfl, rfl, ?_⟩
  rfl

/-- Annotation table for the C3 counterexample: the only probe has a
zero-width range. -/
def coordsC3 : CoordTable := [("cg01", ⟨"chr1", 100, 100⟩)]

/-- Beta matrix for the C3 counterexample. -/
def betasC3 : BetaMatrix := [("cg01", [some (mkRat 1 2)])]

/-- C3 counterexample: the beta matrix contains the probe `cg01`, but because
its only annotation range is zero-width the join stage is empty and `get_dmr`
returns the empty table (dm.py line 156) — `cg01` appears zero times in the
output probe-to-segment mapping, not exactly once, and receives no singleton
segment id. -/
theorem C3_counterexample :
    betasC3.map Prod.fst = ["cg01"]
    ∧ get_dmr (fun s => s) coordsC3 betasC3 (some 1) (mkRat 1 2) = .table [] := by
  constructor <;> rfl

theorem remergeStage_keyErr (coords : CoordTable) (betaIds : List ProbeId)
    (segAssign : List (ProbeId × Nat))
    (h : ∃ pid ∈ betaIds, (coords.find? (fun c => c.1 == pid)).isSome = false) :
    remergeStage coords betaIds segAssign = .keyErr := by
  rcases h with ⟨pid, hmem, hf⟩
  unfold remergeStage
  rw [if_neg]
  intro hall
  have := List.all_eq_true.1 hall pid hmem
  rw [hf] at this
  exact Bool.false_ne_true this

/-- C10: `get_dmr`'s re-merge step indexes the full annotation coordinate
table by the beta matrix's entire probe index
(`probe_coords_df.loc[betas.index]`, dm.py line 190); whenever the run
reaches that step (the join stage is non-empty and the cutoff resolution
succeeds) but some beta probe id is absent from the annotation table, the
operation raises a `KeyError` instead of returning a result — so the
no-probe-dropped guarantee can only hold under the precondition that every
beta probe id is present in the annotation. -/
theorem C10_remerge_requires_annotation_coverage
    (strip : ProbeId → ProbeId) (probe_coords : CoordTable) (betas : BetaMatrix)
    (dist_cutoff : Option ℚ) (seg_per_locus : ℚ) (t : ℚ × Bool × Bool)
    (hjoin : joinStage strip probe_coords betas ≠ [])
    (hcut : resolve_cutoff dist_cutoff seg_per_locus
        (quantileCandidates
          (betaDistances
            ((sortRanges (joinStage strip probe_coords betas)).map (fun r => r.2.2)))
          (lastInChromosome
            ((sortRanges (joinStage strip probe_coords betas)).map (fun r => r.2.1.chrom))))
      = some t)
    (habsent : ∃ pid ∈ betas.map Prod.fst,
        (probe_coords.find? (fun c => c.1 == pid)).isSome = false) :
    get_dmr strip probe_coords betas dist_cutoff seg_per_locus = .keyErr := by
  have hne : (joinStage strip probe_coords betas).isEmpty = false := by
    cases hj : joinStage strip probe_coords betas with
    | nil => exact absurd hj hjoin
    | cons a l => rfl
  simp only [get_dmr]
  rw [if_neg (by simp [hne]), hcut]
  exact remergeStage_keyErr _ _ _ habsent

/-- Annotation table for the C10 witness. -/
def coordsC10 : CoordTable := [("cgA", ⟨"chr1", 100, 200⟩)]

/-- Beta matrix for the C10 witness: `cgB` is absent from the annotation. -/
def betasC10 : BetaMatrix := [("cgA", [some 1]), ("cgB", [some 0])]

/-- C10 witness: a run whose join stage matches `cgA` but whose beta matrix
also holds `cgB`, unknown to the annotation: the re-merge raises. -/
theorem C10_witness :
    get_dmr (fun s => s) coordsC10 betasC10 (some 1) (mkRat 1 2) = .keyErr :=
  C10_remerge_requires_annotation_coverage (fun s => s) coordsC10 betasC10 (some 1) (mkRat 1 2)
    (1, false, false) (by decide) (by decide) (by decide)

theorem filter_key_eq_nil_of_not_mem {β : Type} (l : List (ProbeId × β)) (k : ProbeId)
    (h : k ∉ l.map Prod.fst) : l.filter (fun c => c.1 == k) = [] := by
  rw [List.filter_eq_nil_iff]
  intro a ha hak
  exact h (List.mem_map.2 ⟨a, ha, by simpa using hak⟩)

theorem filter_key_of_find? {β : Type} (l : List (ProbeId × β))
    (hnd : (l.map Prod.fst).Nodup) (k : ProbeId) :
    l.filter (fun c => c.1 == k)
      = match l.find? (fun c => c.1 == k) with
        | some a => [a]
        | none => [] := by
  induction l with
  | nil => rfl
  | cons p rest ih =>
    simp only [List.map_cons, List.nodup_cons] at hnd
    by_cases hp : p.1 = k
    · rw [List.filter_cons_of_pos (by simpa using hp),
        List.find?_cons_of_pos _ (by simpa using hp),
        filter_key_eq_nil_of_not_mem rest k (hp ▸ hnd.1)]
    · rw [List.filter_cons_of_neg (by simpa using hp),
        List.find?_cons_of_neg _ (by simpa using hp)]
      exact ih hnd.2

theorem flatMap_eq_map_of (l : List α) (g : α → List β) (f : α → β)
    (h : ∀ x ∈ l, g x = [f x]) : l.flatMap g = l.map f := by
  induction l with
  | nil => rfl
  | cons x xs ih =>
    rw [List.flatMap_cons, h x (List.mem_cons_self x xs), List.map_cons,
      ih (fun y hy => h y (List.mem_cons_of_mem x hy))]
    rfl

theorem locRows_eq (coords : CoordTable) (betaIds : List ProbeId)
    (hc : (coords.map Prod.fst).Nodup)
    (hcov : ∀ pid ∈ betaIds, (coords.find? (fun c => c.1 == pid)).isSome = true) :
    locRows coords betaIds = betaIds := by
  unfold locRows
  rw [flatMap_eq_map_of _ _ (fun pid => pid)]
  · simp
  · intro pid hmem
    obtain ⟨a, ha⟩ := Option.isSome_iff_exists.1 (hcov pid hmem)
    rw [filter_key_of_find? coords hc pid, ha]
    rfl

theorem joinSegId_eq (segAssign : List (ProbeId × Nat)) (rows : List ProbeId)
    (hs : (segAssign.map Prod.fst).Nodup) :
    joinSegId segAssign rows = rows.map (fun pid => (pid, lookupSeg segAssign pid)) := by
  unfold joinSegId
  apply flatMap_eq_map_of
  intro pid _
  rw [filter_key_of_find? segAssign hs pid]
  cases hf : segAssign.find? (fun a => a.1 == pid) with
  | none => simp [lookupSeg, hf]
  | some a => simp [lookupSeg, hf]

theorem assignFresh_map_fst (mv : Nat) : ∀ (k : Nat) (l : List (ProbeId × Option Nat)),
    (assignFresh mv k l).map Prod.fst = l.map Prod.fst := by
  intro k l
  induction l generalizing k with
  | nil => rfl
  | cons x rest ih =>
    obtain ⟨pid, s⟩ := x
    cases s with
    | none => simp [assignFresh, ih]
    | some v => simp [assignFresh, ih]

theorem assignFresh_mem (mv : Nat) : ∀ (k : Nat) (l : List (ProbeId × Option Nat))
    (x : ProbeId × Nat), x ∈ assignFresh mv k l →
    (∃ s, (x.1, some s) ∈ l ∧ x.2 = s) ∨ ((x.1, none) ∈ l ∧ mv + 1 + k ≤ x.2) := by
  intro k l
  induction l generalizing k with
  | nil => intro x hx; simp [assignFresh] at hx
  | cons y rest ih =>
    obtain ⟨pid, s⟩ := y
    intro x hx
    cases s with
    | some v =>
      simp only [assignFresh, List.mem_cons] at hx
      rcases hx with hx | hx
      · exact Or.inl ⟨v, by simp [hx], by simp [hx]⟩
      · rcases ih k x hx with ⟨s, hs, he⟩ | ⟨hn, hbd⟩
        · exact Or.inl ⟨s, List.mem_cons_of_mem _ hs, he⟩
        · exact Or.inr ⟨List.mem_cons_of_mem _ hn, hbd⟩
    | none =>
      simp only [assignFresh, List.mem_cons] at hx
      rcases hx with hx | hx
      · refine Or.inr ⟨by simp [hx], by simp [hx]⟩
      · rcases ih (k + 1) x hx with ⟨s, hs, he⟩ | ⟨hn, hbd⟩
        · exact Or.inl ⟨s, List.mem_cons_of_mem _ hs, he⟩
        · exact Or.inr ⟨List.mem_cons_of_mem _ hn, by omega⟩

theorem assignFresh_fresh_values (mv : Nat) : ∀ (k : Nat) (l : List (ProbeId × Option Nat)),
    (∀ y ∈ l, ∀ s, y.2 = some s → s ≤ mv) →
    ((assignFresh mv k l).map Prod.snd).filter (fun v => decide (mv < v))
      = List.range' (mv + 1 + k) (l.countP (fun y => y.2.isNone)) := by
  intro k l
  induction l generalizing k with
  | nil => intro _; rfl
  | cons y rest ih =>
    intro hbd
    obtain ⟨pid, s⟩ := y
    cases s with
    | some v =>
      have hv : v ≤ mv := hbd (pid, some v) (List.mem_cons_self _ _) v rfl
      simp only [assignFresh, List.map_cons, List.countP_cons]
      rw [List.filter_cons_of_neg (by simpa using Nat.not_lt.2 hv),
        ih k (fun y hy => hbd y (List.mem_cons_of_mem _ hy))]
      simp
    | none =>
      simp only [assignFresh, List.map_cons, List.countP_cons]
      rw [List.filter_cons_of_pos (by simp only [decide_eq_true_eq]; omega),
        ih (k + 1) (fun y hy => hbd y (List.mem_cons_of_mem _ hy))]
      have hcnt : rest.countP (fun y => y.2.isNone) + (if (pid, (none : Option Nat)).2.isNone = true then 1 else 0)
          = rest.countP (fun y => y.2.isNone) + 1 := by simp
      rw [hcnt, List.range'_succ]
      have hst : mv + 1 + (k + 1) = mv + 1 + k + 1 := by omega
      rw [hst]

theorem maxSegOf_ge (segAssign : List (ProbeId × Nat)) :
    ∀ a ∈ segAssign, a.2 ≤ maxSegOf segAssign := by
  induction segAssign with
  | nil => intro a ha; simp at ha
  | cons x rest ih =>
    intro a ha
    have hx : maxSegOf (x :: rest) = max x.2 (maxSegOf rest) := rfl
    rcases List.mem_cons.1 ha with h | h
    · rw [h, hx]; exact le_max_left _ _
    · rw [hx]; exact le_trans (ih a h) (le_max_right _ _)

theorem lookupSeg_some_mem (segAssign : List (ProbeId × Nat)) (pid : ProbeId) (s : Nat)
    (h : lookupSeg segAssign pid = some s) : (pid, s) ∈ segAssign := by
  unfold lookupSeg at h
  cases hf : segAssign.find? (fun a => a.1 == pid) with
  | none => rw [hf] at h; simp at h
  | some a =>
    rw [hf] at h
    simp only [Option.map_some'] at h
    have hmem := List.mem_of_find?_eq_some hf
    have hpa := List.find?_some hf
    obtain ⟨a1, a2⟩ := a
    simp only [beq_iff_eq] at hpa
    simp only [Option.some.injEq] at h
    rw [← hpa, ← h] at *
    exact hmem

/-- C3 amended: whenever the re-merge step of `get_dmr` actually runs (the
claim fails on inputs where the join stage is empty, cf. the counterexample)
and the inputs are well-formed — every beta probe id occurs in the annotation
table, probe ids are unique in the beta matrix, the annotation table and the
segment assignment — the re-merge output contains each beta probe id exactly
once (its ids are a permutation of the beta probe ids and duplicate-free);
a probe with an assigned segment id keeps it, and every probe without one
(excluded from segmentation by a zero-width range or missing beta values)
receives a segment id strictly greater than every assigned segment id, these
fresh ids being pairwise distinct (one singleton per such probe). -/
theorem C3_no_probe_dropped (coords : CoordTable) (betaIds : List ProbeId)
    (segAssign : List (ProbeId × Nat))
    (hcov : ∀ pid ∈ betaIds, (coords.find? (fun c => c.1 == pid)).isSome = true)
    (hb : betaIds.Nodup) (hc : (coords.map Prod.fst).Nodup)
    (hs : (segAssign.map Prod.fst).Nodup) :
    ∃ m, remergeStage coords betaIds segAssign = .table m
      ∧ (m.map Prod.fst).Perm betaIds
      ∧ (m.map Prod.fst).Nodup
      ∧ (∀ x ∈ m, ∀ s, lookupSeg segAssign x.1 = some s → x.2 = s)
      ∧ (∀ x ∈ m, lookupSeg segAssign x.1 = none → ∀ a ∈ segAssign, a.2 < x.2)
      ∧ ((m.map Prod.snd).filter (fun v => decide (maxSegOf segAssign < v))).Nodup := by
  have hall : betaIds.all (fun pid => (coords.find? (fun c => c.1 == pid)).isSome) = true :=
    List.all_eq_true.2 hcov
  have hloc : locRows coords betaIds = betaIds := locRows_eq coords betaIds hc hcov
  have hjoin : joinSegId segAssign (locRows coords betaIds)
      = betaIds.map (fun pid => (pid, lookupSeg segAssign pid)) := by
    rw [hloc]
    exact joinSegId_eq segAssign betaIds hs
  have hperm : (sortBySegId (betaIds.map (fun pid => (pid, lookupSeg segAssign pid)))).Perm
      (betaIds.map (fun pid => (pid, lookupSeg segAssign pid))) := sortBy_perm _ _
  have hshape : ∀ x ∈ sortBySegId (betaIds.map (fun pid => (pid, lookupSeg segAssign pid))),
      x.2 = lookupSeg segAssign x.1 ∧ x.1 ∈ betaIds := by
    intro x hx
    obtain ⟨pid, hpid, he⟩ := List.mem_map.1 (hperm.mem_iff.1 hx)
    cases he
    exact ⟨rfl, hpid⟩
  have hfst : (sortBySegId (betaIds.map (fun pid => (pid, lookupSeg segAssign pid)))).map
      Prod.fst |>.Perm betaIds := by
    have h1 := hperm.map Prod.fst
    have h2 : (betaIds.map (fun pid => (pid, lookupSeg segAssign pid))).map Prod.fst
        = betaIds := by
      rw [List.map_map]
      show betaIds.map (fun pid => pid) = betaIds
      exact List.map_id' betaIds
    rw [h2] at h1
    exact h1
  refine ⟨assignFresh (maxSegOf segAssign) 0
      (sortBySegId (betaIds.map (fun pid => (pid, lookupSeg segAssign pid)))),
    ?_, ?_, ?_, ?_, ?_, ?_⟩
  · unfold remergeStage
    rw [if_pos hall, hjoin]
  · rw [assignFresh_map_fst]
    exact hfst
  · rw [assignFresh_map_fst]
    exact (hfst.nodup_iff).2 hb
  · intro x hx s hlook
    rcases assignFresh_mem _ _ _ x hx with ⟨s2, hmem2, he2⟩ | ⟨hmem2, _⟩
    · have hsh := (hshape (x.1, some s2) hmem2).1
      rw [hlook] at hsh
      have : s2 = s := by simpa using hsh
      rw [he2, this]
    · have hsh := (hshape (x.1, none) hmem2).1
      rw [hlook] at hsh
      exact absurd hsh (by simp)
  · intro x hx hnone a ha
    rcases assignFresh_mem _ _ _ x hx with ⟨s2, hmem2, _⟩ | ⟨_, hbd⟩
    · have hsh := (hshape (x.1, some s2) hmem2).1
      rw [hnone] at hsh
      exact absurd hsh (by simp)
    · have hle := maxSegOf_ge segAssign a ha
      omega
  · rw [assignFresh_fresh_values]
    · exact List.nodup_range' _ _
    · intro y hy s hys
      have hsh := (hshape y hy).1
      have hlk : lookupSeg segAssign y.1 = some s := by rw [← hsh, hys]
      exact maxSegOf_ge segAssign _ (lookupSeg_some_mem segAssign y.1 s hlk)

/-- C3 witness: two annotated beta probes of which only one got a segment id;
the other receives a fresh singleton id. -/
theorem C3_witness :
    ∃ m, remergeStage [("cgA", ⟨"chr1", 1, 5⟩), ("cgB", ⟨"chr1", 6, 9⟩)] ["cgA", "cgB"]
        [("cgA", 1)] = .table m
      ∧ (m.map Prod.fst).Perm ["cgA", "cgB"]
      ∧ (m.map Prod.fst).Nodup
      ∧ (∀ x ∈ m, ∀ s, lookupSeg [("cgA", 1)] x.1 = some s → x.2 = s)
      ∧ (∀ x ∈ m, lookupSeg [("cgA", 1)] x.1 = none → ∀ a ∈ [("cgA", 1)], a.2 < x.2)
      ∧ ((m.map Prod.snd).filter (fun v => decide (maxSegOf [("cgA", 1)] < v))).Nodup :=
  C3_no_probe_dropped [("cgA", ⟨"chr1", 1, 5⟩), ("cgB", ⟨"chr1", 6, 9⟩)] ["cgA", "cgB"]
    [("cgA", 1)] (by decide) (by decide) (by decide) (by decide)
